import Mathlib

/-
  Verification of the saltybox passphrase-based file encryption tool.

  This file gives a shallow embedding of the core of the repository:
  the versioned text armor (src/varmor.rs), the binary cryptographic
  envelope codec (src/secretcrypt.rs), and the two-phase update protocol
  (src/file_ops.rs), together with theorems settling the specification
  claims about them.

  Byte strings are modelled as `List Nat` whose elements are intended to
  be below 256; theorems that depend on the byte bound take it as a
  hypothesis.  The external cryptographic collaborators (the scrypt
  crate and the crypto_secretbox XSalsa20Poly1305 crate) are not part of
  the repository; they are modelled as an abstract `CryptoModel`
  parameter, and the properties the repository relies on (sealing adds a
  16-byte tag, opening a sealed box with the sealing key succeeds,
  opening with a wrong key fails) appear as explicit hypotheses of the
  theorems that need them.  A small executable instance `toyModel` is
  used to witness those hypotheses at concrete inputs.
-/

namespace Saltybox

/-- Error kinds, translated from src/error.rs (enum ErrorKind). -/
inductive ErrorKind where
  | ArmoringInvalid
  | ArmoringDecode
  | ArmoringFromFuture
  | BinaryFormat
  | TruncatedInput
  | TrailingData
  | AuthenticationFailed
  | PassphraseUnavailable
  | ScryptFailure
  | SecretboxFailure
  | InternalInvariant
  | Io
deriving DecidableEq, Repr

instance {ε α : Type} [DecidableEq ε] [DecidableEq α] : DecidableEq (Except ε α) := fun x y =>
  match x, y with
  | .ok a, .ok b =>
      if h : a = b then .isTrue (by rw [h]) else .isFalse (by intro hh; cases hh; exact h rfl)
  | .error a, .error b =>
      if h : a = b then .isTrue (by rw [h]) else .isFalse (by intro hh; cases hh; exact h rfl)
  | .ok _, .error _ => .isFalse (by intro hh; cases hh)
  | .error _, .ok _ => .isFalse (by intro hh; cases hh)

/-! ## base64url (no padding)

The repository armors data with the base64 crate engine
URL_SAFE_NO_PAD.  The encoding below is the standard base64url
alphabet without padding; decoding is strict (it rejects characters
outside the alphabet, a length congruent to 1 mod 4, and nonzero
trailing bits in the final symbol), matching the crate. -/

/-- The base64url alphabet: sextet value to ASCII byte. -/
def b64Char (n : Nat) : Nat :=
  if n < 26 then 65 + n
  else if n < 52 then 97 + (n - 26)
  else if n < 62 then 48 + (n - 52)
  else if n = 62 then 45
  else 95

/-- ASCII byte back to sextet value; none for bytes outside the alphabet. -/
def b64DecodeByte (c : Nat) : Option Nat :=
  if 65 ≤ c ∧ c ≤ 90 then some (c - 65)
  else if 97 ≤ c ∧ c ≤ 122 then some (c - 97 + 26)
  else if 48 ≤ c ∧ c ≤ 57 then some (c - 48 + 52)
  else if c = 45 then some 62
  else if c = 95 then some 63
  else none

/-- base64url encoding without padding, three input bytes per four output
characters. -/
def b64Encode : List Nat → List Nat
  | [] => []
  | [a] => [b64Char (a / 4), b64Char (a % 4 * 16)]
  | [a, b] => [b64Char (a / 4), b64Char (a % 4 * 16 + b / 16), b64Char (b % 16 * 4)]
  | a :: b :: c :: rest =>
      b64Char (a / 4) :: b64Char (a % 4 * 16 + b / 16) ::
      b64Char (b % 16 * 4 + c / 64) :: b64Char (c % 64) :: b64Encode rest

/-- strict base64url decoding without padding. -/
def b64Decode : List Nat → Option (List Nat)
  | [] => some []
  | [_] => none
  | [c1, c2] =>
      match b64DecodeByte c1, b64DecodeByte c2 with
      | some a, some b => if b % 16 = 0 then some [a * 4 + b / 16] else none
      | _, _ => none
  | [c1, c2, c3] =>
      match b64DecodeByte c1, b64DecodeByte c2, b64DecodeByte c3 with
      | some a, some b, some c =>
          if c % 4 = 0 then some [a * 4 + b / 16, b % 16 * 16 + c / 4] else none
      | _, _, _ => none
  | c1 :: c2 :: c3 :: c4 :: rest =>
      match b64DecodeByte c1, b64DecodeByte c2, b64DecodeByte c3, b64DecodeByte c4 with
      | some a, some b, some c, some d =>
          match b64Decode rest with
          | some tail => some ((a * 4 + b / 16) :: (b % 16 * 16 + c / 4) :: (c % 4 * 64 + d) :: tail)
          | none => none
      | _, _, _, _ => none

/-! ## Versioned armor, translated from src/varmor.rs -/

/-- UTF-8 bytes of the V1_MAGIC marker string saltybox1: . -/
def v1Magic : List Nat := [115, 97, 108, 116, 121, 98, 111, 120, 49, 58]

/-- UTF-8 bytes of the bare MAGIC_PREFIX string saltybox . -/
def magicBase : List Nat := [115, 97, 108, 116, 121, 98, 111, 120]

/-- wrap, translated from src/varmor.rs: prepend the version marker to
the base64url encoding of the body.  Strings are modelled as their
UTF-8 bytes. -/
def wrap (body : List Nat) : List Nat := v1Magic ++ b64Encode body

/-- unwrap, translated from src/varmor.rs.  The Rust code checks the
byte length against the marker, then uses strip_prefix with the V1
marker, then starts_with with the bare magic; here prefix stripping is
expressed with List.take and List.drop. -/
def unwrap (armored : List Nat) : Except ErrorKind (List Nat) :=
  if armored.length < v1Magic.length then .error .ArmoringInvalid
  else if armored.take v1Magic.length = v1Magic then
    match b64Decode (armored.drop v1Magic.length) with
    | some body => .ok body
    | none => .error .ArmoringDecode
  else if armored.take magicBase.length = magicBase then .error .ArmoringFromFuture
  else .error .ArmoringInvalid

/-! ## Binary envelope codec, translated from src/secretcrypt.rs

The scrypt key derivation and the XSalsa20Poly1305 secretbox are
external crates; they enter the embedding as the abstract functions of
a `CryptoModel`.  Everything else (the envelope layout, every length
check and error site of decrypt) is translated directly from the
source. -/

/-- Abstract model of the external cryptographic collaborators:
scrypt key derivation (derive_key body), secretbox sealing
(cipher.encrypt) and opening (cipher.decrypt, returning none on
authentication failure). -/
structure CryptoModel where
  kdf : List Nat → List Nat → List Nat
  sealBox : List Nat → List Nat → List Nat → List Nat
  openBox : List Nat → List Nat → List Nat → Option (List Nat)

/-- SALT_LEN from src/secretcrypt.rs. -/
def SALT_LEN : Nat := 8

/-- NONCE_LEN from src/secretcrypt.rs. -/
def NONCE_LEN : Nat := 24

/-- The big-endian byte encoding produced by (n as i64).to_be_bytes()
for a usize n: the eight base-256 digits of n (n is below 2 ^ 64). -/
def i64ToBeBytes (n : Nat) : List Nat :=
  [n / 2 ^ 56 % 256, n / 2 ^ 48 % 256, n / 2 ^ 40 % 256, n / 2 ^ 32 % 256,
   n / 2 ^ 24 % 256, n / 2 ^ 16 % 256, n / 2 ^ 8 % 256, n % 256]

/-- Big-endian unsigned reading of a byte list. -/
def beU64 (bs : List Nat) : Nat := bs.foldl (fun acc b => acc * 256 + b) 0

/-- i64::from_be_bytes on eight bytes: twos-complement signed
interpretation of the big-endian value. -/
def i64FromBeBytes (bs : List Nat) : Int :=
  if beU64 bs < 2 ^ 63 then (beU64 bs : Int) else (beU64 bs : Int) - 2 ^ 64

/-- isize::MAX on a 64-bit platform, the capacity bound used by
decrypt in src/secretcrypt.rs. -/
def isizeMax : Int := 2 ^ 63 - 1

/-- encrypt_deterministic, translated from src/secretcrypt.rs: derive
the key, seal the plaintext, and build salt then nonce then big-endian
i64 length then sealed box. -/
def encrypt_deterministic (M : CryptoModel) (passphrase plaintext salt nonce : List Nat) :
    List Nat :=
  let key := M.kdf passphrase salt
  let sealedBox := M.sealBox key nonce plaintext
  salt ++ nonce ++ i64ToBeBytes sealedBox.length ++ sealedBox

/-- The distinct failure sites of decrypt in src/secretcrypt.rs, one
constructor per bail site, plus sliceOob marking an out-of-bounds
slice access (a panic in Rust), which decrypt is shown never to
reach. -/
inductive DecErr where
  | truncSalt
  | truncNonce
  | truncLen
  | negLen
  | lenExceedsIsize
  | claimedTooLong
  | truncSealed
  | trailing
  | authFailed
  | sliceOob
deriving DecidableEq, Repr

/-- Modelled from the spec: src/secretcrypt.rs reports its failures as
plain messages without machine-readable kinds; section 4.3 of the
specification assigns an ErrorKind to each validation step (checks 1
to 3 and 7 are TruncatedInput, checks 4 to 6 are BinaryFormat, check 8
is TrailingData, an opening failure is AuthenticationFailed).  This
function is that assignment. -/
def decErrKind : DecErr → ErrorKind
  | .truncSalt => .TruncatedInput
  | .truncNonce => .TruncatedInput
  | .truncLen => .TruncatedInput
  | .negLen => .BinaryFormat
  | .lenExceedsIsize => .BinaryFormat
  | .claimedTooLong => .BinaryFormat
  | .truncSealed => .TruncatedInput
  | .trailing => .TrailingData
  | .authFailed => .AuthenticationFailed
  | .sliceOob => .InternalInvariant

/-- Whether a decrypt result is the out-of-bounds marker, that is,
whether the run reached a slice access outside its bounds. -/
def isSliceOobResult : Except DecErr (List Nat) → Bool
  | .error .sliceOob => true
  | _ => false

/-- Guarded slice: the bytes at positions pos to pos + len, or none
when that range does not fit, modelling that an unguarded Rust slice
expression would panic there. -/
def sliceQ (l : List Nat) (pos len : Nat) : Option (List Nat) :=
  if pos + len ≤ l.length then some ((l.drop pos).take len) else none

/-- decrypt, translated from src/secretcrypt.rs.  The running position
pos of the source is inlined (0, 8, 32, 40); every bounds check and
its error site appears in source order; each slice expression is the
guarded sliceQ whose failure case sliceOob corresponds to a Rust
panic. -/
def decrypt (M : CryptoModel) (passphrase ciphertext : List Nat) :
    Except DecErr (List Nat) :=
  if ciphertext.length < 8 then .error .truncSalt
  else match sliceQ ciphertext 0 8 with
  | none => .error .sliceOob
  | some salt =>
    if ciphertext.length < 32 then .error .truncNonce
    else match sliceQ ciphertext 8 24 with
    | none => .error .sliceOob
    | some nonce =>
      if ciphertext.length < 40 then .error .truncLen
      else match sliceQ ciphertext 32 8 with
      | none => .error .sliceOob
      | some lengthBytes =>
        let sealedBoxLenI : Int := i64FromBeBytes lengthBytes
        if sealedBoxLenI < 0 then .error .negLen
        else if isizeMax < sealedBoxLenI then .error .lenExceedsIsize
        else
          let sealedBoxLen : Nat := sealedBoxLenI.toNat
          if ciphertext.length < sealedBoxLen then .error .claimedTooLong
          else if ciphertext.length < 40 + sealedBoxLen then .error .truncSealed
          else match sliceQ ciphertext 40 sealedBoxLen with
          | none => .error .sliceOob
          | some sealedBox =>
            if 40 + sealedBoxLen < ciphertext.length then .error .trailing
            else match M.openBox (M.kdf passphrase salt) nonce sealedBox with
            | none => .error .authFailed
            | some plaintext => .ok plaintext

/-! ## The update protocol, translated from src/file_ops.rs (update_file)

The filesystem state relevant to the claims is the content of the
encrypted target file (crypt_path); update_file is modelled as a
function from that content (plus the new plaintext, the passphrase the
reader yields, and the fresh salt and nonce encrypt draws) to the new
content paired with the error, if any.  The Rust code only touches the
target in the final persist (rename) step, after every validation step
has succeeded; accordingly the model returns the old content unchanged
in every error case.  Temporary-file input/output is modelled as
succeeding. -/

/-- One-pass UTF-8 scanner: need counts expected continuation bytes,
and lo, hi bound the next continuation byte (the bounds of the first
continuation byte after a lead byte encode the overlong, surrogate and
range restrictions; later continuation bytes are 0x80 to 0xBF). -/
def utf8Scan : List Nat → Nat → Nat → Nat → Bool
  | [], 0, _, _ => true
  | [], _ + 1, _, _ => false
  | b :: rest, 0, _, _ =>
      if b ≤ 0x7F then utf8Scan rest 0 0 0
      else if 0xC2 ≤ b ∧ b ≤ 0xDF then utf8Scan rest 1 0x80 0xBF
      else if b = 0xE0 then utf8Scan rest 2 0xA0 0xBF
      else if (0xE1 ≤ b ∧ b ≤ 0xEC) ∨ (0xEE ≤ b ∧ b ≤ 0xEF) then utf8Scan rest 2 0x80 0xBF
      else if b = 0xED then utf8Scan rest 2 0x80 0x9F
      else if b = 0xF0 then utf8Scan rest 3 0x90 0xBF
      else if 0xF1 ≤ b ∧ b ≤ 0xF3 then utf8Scan rest 3 0x80 0xBF
      else if b = 0xF4 then utf8Scan rest 3 0x80 0x8F
      else false
  | b :: rest, need + 1, lo, hi =>
      if lo ≤ b ∧ b ≤ hi then utf8Scan rest need 0x80 0xBF else false

/-- UTF-8 validity of a byte list, modelling String::from_utf8
(accepting exactly well-formed UTF-8 without surrogates or overlong
forms). -/
def validUtf8 (l : List Nat) : Bool := utf8Scan l 0 0 0

/-- Errors surfaced by update_file, with the stage they arose in. -/
inductive UpdErr where
  | notUtf8
  | unarmor (k : ErrorKind)
  | decryptErr (e : DecErr)
deriving DecidableEq, Repr

/-- The ErrorKind carried by an update_file error: from_utf8 failure is
wrapped as an Io error in src/file_ops.rs; unarmor errors keep the
kind varmor assigned; decrypt errors carry the kind of decErrKind. -/
def updErrKind : UpdErr → ErrorKind
  | .notUtf8 => .Io
  | .unarmor k => k
  | .decryptErr e => decErrKind e

/-- update_file, translated from src/file_ops.rs: read the existing
encrypted content, require it to be UTF-8, read the passphrase, phase
one validates by unarmoring and decrypting the existing content
(discarding the plaintext), and only if that succeeds does phase two
encrypt the new plaintext under the same passphrase and atomically
replace the target.  The result pairs the content of the target file
after the call with the error, if any. -/
def update_file (M : CryptoModel) (plainContent cryptContent passphrase salt nonce : List Nat) :
    List Nat × Option UpdErr :=
  if validUtf8 cryptContent = false then (cryptContent, some .notUtf8)
  else
    match unwrap cryptContent with
    | .error k => (cryptContent, some (.unarmor k))
    | .ok ciphertext =>
      match decrypt M passphrase ciphertext with
      | .error e => (cryptContent, some (.decryptErr e))
      | .ok _ => (wrap (encrypt_deterministic M passphrase plainContent salt nonce), none)

/-! ## A concrete executable CryptoModel instance

Used only to witness, at concrete inputs, the contract hypotheses that
the theorems place on the external collaborators.  It is an invertible
keystream shift with a 16-byte checksum tag over key, nonce and
ciphertext; it makes no cryptographic claim. -/

/-- Keystream byte i of the toy cipher. -/
def toyKs (key nonce : List Nat) (i : Nat) : Nat := (key.sum + nonce.sum + i) % 256

/-- 16-byte tag of the toy cipher. -/
def toyTag (key nonce ct : List Nat) : List Nat :=
  (List.range 16).map (fun i => (3 * key.sum + 5 * nonce.sum + 7 * ct.sum + 11 * i) % 256)

/-- Toy sealing: shift each byte by the keystream, append the tag. -/
def toySeal (key nonce pt : List Nat) : List Nat :=
  let ct := ((List.range pt.length).zip pt).map (fun p => (p.2 + toyKs key nonce p.1) % 256)
  ct ++ toyTag key nonce ct

/-- Toy opening: check the tag, undo the keystream shift. -/
def toyOpenBox (key nonce sb : List Nat) : Option (List Nat) :=
  if sb.length < 16 then none
  else
    let ct := sb.take (sb.length - 16)
    if sb.drop (sb.length - 16) = toyTag key nonce ct then
      some (((List.range ct.length).zip ct).map
        (fun p => (p.2 + 256 - toyKs key nonce p.1) % 256))
    else none

/-- Toy key derivation standing in for scrypt in witnesses. -/
def toyKdf (passphrase salt : List Nat) : List Nat :=
  (List.range 32).map
    (fun i => (passphrase.foldl (fun a b => (a * 31 + b + 1) % 256) 0 + salt.sum + i) % 256)

/-- The concrete model used by witnesses. -/
def toyModel : CryptoModel := ⟨toyKdf, toySeal, toyOpenBox⟩

/-! ## Helper lemmas -/

theorem i64ToBeBytes_length (n : Nat) : (i64ToBeBytes n).length = 8 := rfl

theorem i64ToBeBytes_bytes (n : Nat) : ∀ x ∈ i64ToBeBytes n, x < 256 := by
  intro x hx
  simp only [i64ToBeBytes, List.mem_cons, List.mem_singleton, List.not_mem_nil, or_false] at hx
  rcases hx with h | h | h | h | h | h | h | h <;> subst h <;> omega

theorem beU64_i64ToBeBytes (n : Nat) (h : n < 2 ^ 64) : beU64 (i64ToBeBytes n) = n := by
  simp only [beU64, i64ToBeBytes, List.foldl]
  omega

theorem i64FromBeBytes_i64ToBeBytes (n : Nat) (h : n < 2 ^ 63) :
    i64FromBeBytes (i64ToBeBytes n) = (n : Int) := by
  unfold i64FromBeBytes
  rw [beU64_i64ToBeBytes n (by omega), if_pos h]

theorem b64DecodeByte_b64Char (n : Nat) (h : n < 64) : b64DecodeByte (b64Char n) = some n := by
  interval_cases n <;> rfl

theorem b64_roundtrip (l : List Nat) (h : ∀ x ∈ l, x < 256) :
    b64Decode (b64Encode l) = some l := by
  induction l using b64Encode.induct with
  | case1 => rfl
  | case2 a =>
      have ha : a < 256 := h a (by simp)
      have e1 := b64DecodeByte_b64Char (a / 4) (by omega)
      have e2 := b64DecodeByte_b64Char (a % 4 * 16) (by omega)
      simp only [b64Encode, b64Decode, e1, e2]
      rw [if_pos (by omega)]
      have : a / 4 * 4 + a % 4 * 16 / 16 = a := by omega
      rw [this]
  | case3 a b =>
      have ha : a < 256 := h a (by simp)
      have hb : b < 256 := h b (by simp)
      have e1 := b64DecodeByte_b64Char (a / 4) (by omega)
      have e2 := b64DecodeByte_b64Char (a % 4 * 16 + b / 16) (by omega)
      have e3 := b64DecodeByte_b64Char (b % 16 * 4) (by omega)
      simp only [b64Encode, b64Decode, e1, e2, e3]
      rw [if_pos (by omega)]
      have h1 : (a / 4) * 4 + (a % 4 * 16 + b / 16) / 16 = a := by omega
      have h2 : (a % 4 * 16 + b / 16) % 16 * 16 + (b % 16 * 4) / 4 = b := by omega
      rw [h1, h2]
  | case4 a b c rest ih =>
      have ha : a < 256 := h a (by simp)
      have hb : b < 256 := h b (by simp)
      have hc : c < 256 := h c (by simp)
      have e1 := b64DecodeByte_b64Char (a / 4) (by omega)
      have e2 := b64DecodeByte_b64Char (a % 4 * 16 + b / 16) (by omega)
      have e3 := b64DecodeByte_b64Char (b % 16 * 4 + c / 64) (by omega)
      have e4 := b64DecodeByte_b64Char (c % 64) (by omega)
      have ihr := ih (fun x hx => h x (by simp [hx]))
      simp only [b64Encode, b64Decode, e1, e2, e3, e4, ihr]
      have h1 : (a / 4) * 4 + (a % 4 * 16 + b / 16) / 16 = a := by omega
      have h2 : (a % 4 * 16 + b / 16) % 16 * 16 + (b % 16 * 4 + c / 64) / 4 = b := by omega
      have h3 : (b % 16 * 4 + c / 64) % 4 * 64 + c % 64 = c := by omega
      rw [h1, h2, h3]

/-- Every character produced by the base64url alphabet function lies in
the alphabet ranges. -/
theorem b64Char_range (n : Nat) :
    (65 ≤ b64Char n ∧ b64Char n ≤ 90) ∨ (97 ≤ b64Char n ∧ b64Char n ≤ 122) ∨
    (48 ≤ b64Char n ∧ b64Char n ≤ 57) ∨ b64Char n = 45 ∨ b64Char n = 95 := by
  unfold b64Char
  split_ifs <;> omega

theorem b64Encode_mem (l : List Nat) :
    ∀ c ∈ b64Encode l,
      (65 ≤ c ∧ c ≤ 90) ∨ (97 ≤ c ∧ c ≤ 122) ∨ (48 ≤ c ∧ c ≤ 57) ∨ c = 45 ∨ c = 95 := by
  induction l using b64Encode.induct with
  | case1 => intro c hc; simp [b64Encode] at hc
  | case2 a =>
      intro c hc
      simp only [b64Encode, List.mem_cons, List.mem_singleton, List.not_mem_nil, or_false] at hc
      rcases hc with h | h <;> subst h <;> exact b64Char_range _
  | case3 a b =>
      intro c hc
      simp only [b64Encode, List.mem_cons, List.mem_singleton, List.not_mem_nil, or_false] at hc
      rcases hc with h | h | h <;> subst h <;> exact b64Char_range _
  | case4 a b c rest ih =>
      intro x hx
      simp only [b64Encode, List.mem_cons] at hx
      rcases hx with h | h | h | h | h
      · subst h; exact b64Char_range _
      · subst h; exact b64Char_range _
      · subst h; exact b64Char_range _
      · subst h; exact b64Char_range _
      · exact ih x h

theorem decrypt_trunc_salt (M : CryptoModel) (pass c : List Nat) (h : c.length < 8) :
    decrypt M pass c = .error .truncSalt := by
  unfold decrypt
  rw [if_pos h]

theorem decrypt_trunc_nonce (M : CryptoModel) (pass c : List Nat)
    (h1 : 8 ≤ c.length) (h2 : c.length < 32) :
    decrypt M pass c = .error .truncNonce := by
  have e1 : sliceQ c 0 8 = some (c.take 8) := by
    unfold sliceQ
    rw [if_pos (by omega), List.drop_zero]
  simp only [decrypt, e1]
  rw [if_neg (by omega), if_pos h2]

theorem decrypt_trunc_len (M : CryptoModel) (pass c : List Nat)
    (h1 : 32 ≤ c.length) (h2 : c.length < 40) :
    decrypt M pass c = .error .truncLen := by
  have e1 : sliceQ c 0 8 = some (c.take 8) := by
    unfold sliceQ
    rw [if_pos (by omega), List.drop_zero]
  have e2 : sliceQ c 8 24 = some ((c.drop 8).take 24) := by
    unfold sliceQ
    rw [if_pos (by omega)]
  simp only [decrypt, e1, e2]
  rw [if_neg (by omega), if_neg (by omega), if_pos h2]

/-- Evaluation of decrypt on any input whose first 40 bytes split as a
32-byte head (salt and nonce) followed by an 8-byte length field: the
remaining validation checks in source order. -/
theorem decrypt_header (M : CryptoModel) (pass pre lenB rest : List Nat)
    (h32 : pre.length = 32) (h8 : lenB.length = 8) :
    decrypt M pass (pre ++ (lenB ++ rest)) =
      if i64FromBeBytes lenB < 0 then .error .negLen
      else if isizeMax < i64FromBeBytes lenB then .error .lenExceedsIsize
      else if 40 + rest.length < (i64FromBeBytes lenB).toNat then .error .claimedTooLong
      else if 40 + rest.length < 40 + (i64FromBeBytes lenB).toNat then .error .truncSealed
      else if 40 + (i64FromBeBytes lenB).toNat < 40 + rest.length then .error .trailing
      else
        match M.openBox (M.kdf pass (pre.take 8)) (pre.drop 8)
            (rest.take (i64FromBeBytes lenB).toNat) with
        | none => .error .authFailed
        | some pt => .ok pt := by
  have hclen : (pre ++ (lenB ++ rest)).length = 40 + rest.length := by
    simp only [List.length_append, h32, h8]
    omega
  have e1 : sliceQ (pre ++ (lenB ++ rest)) 0 8 = some (pre.take 8) := by
    unfold sliceQ
    rw [if_pos (by rw [hclen]; omega), List.drop_zero,
      List.take_append_of_le_length (by omega)]
  have e2 : sliceQ (pre ++ (lenB ++ rest)) 8 24 = some (pre.drop 8) := by
    unfold sliceQ
    rw [if_pos (by rw [hclen]; omega), List.drop_append_of_le_length (by omega),
      List.take_append_of_le_length (by simp [h32])]
    have hd : (pre.drop 8).length = 24 := by simp [h32]
    rw [← hd, List.take_length]
  have e3 : sliceQ (pre ++ (lenB ++ rest)) 32 8 = some lenB := by
    unfold sliceQ
    rw [if_pos (by rw [hclen]; omega)]
    have d32 : (pre ++ (lenB ++ rest)).drop 32 = lenB ++ rest := by
      rw [← h32]
      exact List.drop_left pre (lenB ++ rest)
    rw [d32, List.take_append_of_le_length (by omega), ← h8, List.take_length]
  have e4 : (pre ++ (lenB ++ rest)).drop 40 = rest := by
    have ha : pre ++ (lenB ++ rest) = (pre ++ lenB) ++ rest := by
      rw [List.append_assoc]
    have hl : (pre ++ lenB).length = 40 := by simp [h32, h8]
    rw [ha, ← hl]
    exact List.drop_left (pre ++ lenB) rest
  have e5 : 40 + (i64FromBeBytes lenB).toNat ≤ 40 + rest.length →
      sliceQ (pre ++ (lenB ++ rest)) 40 (i64FromBeBytes lenB).toNat =
        some (rest.take (i64FromBeBytes lenB).toNat) := by
    intro hle
    unfold sliceQ
    rw [if_pos (by rw [hclen]; omega), e4]
  simp only [decrypt, e1, e2, e3, hclen]
  rw [if_neg (by omega), if_neg (by omega), if_neg (by omega)]
  split_ifs with h1 h2 h3 h4 h5
  · rfl
  · rfl
  · rfl
  · rfl
  · rw [e5 (by omega)]
  · rw [e5 (by omega)]

/-- Evaluation of decrypt on the output of encrypt_deterministic: the
envelope parses, and the result is decided by the secretbox opening
with the key derived from the decrypting passphrase and the embedded
salt. -/
theorem decrypt_encrypt_det (M : CryptoModel) (passD passE pt salt nonce : List Nat)
    (hsalt : salt.length = 8) (hnonce : nonce.length = 24)
    (hbound : (M.sealBox (M.kdf passE salt) nonce pt).length < 2 ^ 63) :
    decrypt M passD (encrypt_deterministic M passE pt salt nonce) =
      match M.openBox (M.kdf passD salt) nonce (M.sealBox (M.kdf passE salt) nonce pt) with
      | none => Except.error DecErr.authFailed
      | some p => Except.ok p := by
  have hpre : (salt ++ nonce).length = 32 := by simp [hsalt, hnonce]
  have hE : encrypt_deterministic M passE pt salt nonce =
      (salt ++ nonce) ++ (i64ToBeBytes (M.sealBox (M.kdf passE salt) nonce pt).length
        ++ M.sealBox (M.kdf passE salt) nonce pt) := by
    unfold encrypt_deterministic
    simp [List.append_assoc]
  rw [hE, decrypt_header M passD _ _ _ hpre (i64ToBeBytes_length _),
    i64FromBeBytes_i64ToBeBytes _ hbound]
  rw [if_neg (by omega), if_neg (by simp only [isizeMax]; omega),
    if_neg (by omega), if_neg (by omega), if_neg (by omega)]
  have hsalt2 : (salt ++ nonce).take 8 = salt := by
    rw [List.take_append_of_le_length (by omega), ← hsalt, List.take_length]
  have hnonce2 : (salt ++ nonce).drop 8 = nonce := by
    rw [List.drop_append_of_le_length (by omega), ← hsalt, List.drop_length,
      List.nil_append]
  have htake : (M.sealBox (M.kdf passE salt) nonce pt).take
      ((((M.sealBox (M.kdf passE salt) nonce pt).length : Nat) : Int)).toNat =
      M.sealBox (M.kdf passE salt) nonce pt := by
    rw [show ((((M.sealBox (M.kdf passE salt) nonce pt).length : Nat) : Int)).toNat
        = (M.sealBox (M.kdf passE salt) nonce pt).length from by omega, List.take_length]
  rw [hsalt2, hnonce2, htake]

theorem validUtf8_of_ascii (l : List Nat) (h : ∀ b ∈ l, b < 128) : validUtf8 l = true := by
  induction l with
  | nil => rfl
  | cons b rest ih =>
      have hb : b < 128 := h b (by simp)
      have hstep : validUtf8 (b :: rest) = validUtf8 rest := by
        unfold validUtf8
        simp only [utf8Scan]
        rw [if_pos (by omega)]
      rw [hstep]
      exact ih (fun x hx => h x (by simp [hx]))

theorem wrap_ascii (body : List Nat) : ∀ c ∈ wrap body, c < 128 := by
  intro c hc
  unfold wrap at hc
  rw [List.mem_append] at hc
  rcases hc with h | h
  · simp only [v1Magic, List.mem_cons, List.not_mem_nil, or_false] at h
    omega
  · rcases b64Encode_mem body c h with ⟨h1, h2⟩ | ⟨h1, h2⟩ | ⟨h1, h2⟩ | h1 | h1 <;> omega

theorem unwrap_wrap (body : List Nat) (h : ∀ x ∈ body, x < 256) :
    unwrap (wrap body) = .ok body := by
  unfold unwrap wrap
  rw [if_neg (by rw [List.length_append]; omega), List.take_left, if_pos rfl,
    List.drop_left, b64_roundtrip body h]

/-! ## Claim theorems -/

/-- Claim C5: for every byte sequence B, unwrap of wrap of B succeeds
and returns exactly B, and wrap of B contains no whitespace character
and none of the characters plus, slash, equals. -/
theorem claim_C5 (B : List Nat) (hB : ∀ x ∈ B, x < 256) :
    unwrap (wrap B) = Except.ok B ∧
    ∀ c ∈ wrap B,
      (c ≠ 32 ∧ c ≠ 9 ∧ c ≠ 10 ∧ c ≠ 11 ∧ c ≠ 12 ∧ c ≠ 13) ∧
      c ≠ 43 ∧ c ≠ 47 ∧ c ≠ 61 := by
  refine ⟨unwrap_wrap B hB, ?_⟩
  intro c hc
  unfold wrap at hc
  rw [List.mem_append] at hc
  rcases hc with h | h
  · simp only [v1Magic, List.mem_cons, List.not_mem_nil, or_false] at h
    omega
  · rcases b64Encode_mem B c h with ⟨h1, h2⟩ | ⟨h1, h2⟩ | ⟨h1, h2⟩ | h1 | h1 <;> omega

/-- Witness for claim C5 at a concrete byte sequence. -/
theorem claim_C5_witness :
    (∀ x ∈ [0, 255, 62, 63], x < 256) ∧
    (unwrap (wrap [0, 255, 62, 63]) = Except.ok [0, 255, 62, 63] ∧
      ∀ c ∈ wrap [0, 255, 62, 63],
        (c ≠ 32 ∧ c ≠ 9 ∧ c ≠ 10 ∧ c ≠ 11 ∧ c ≠ 12 ∧ c ≠ 13) ∧
        c ≠ 43 ∧ c ≠ 47 ∧ c ≠ 61) :=
  ⟨by decide, claim_C5 [0, 255, 62, 63] (by decide)⟩

/-- Claim C6: unwrap decides its input in this order: an input shorter
than the version marker is ArmoringInvalid; an input carrying the
version marker is base64url-decoded with decode failure reported as
ArmoringDecode; an input carrying only the bare magic is
ArmoringFromFuture; anything else is ArmoringInvalid. -/
theorem claim_C6 (s : List Nat) :
    (s.length < v1Magic.length → unwrap s = Except.error ErrorKind.ArmoringInvalid) ∧
    (s.take v1Magic.length = v1Magic →
      unwrap s =
        match b64Decode (s.drop v1Magic.length) with
        | some body => Except.ok body
        | none => Except.error ErrorKind.ArmoringDecode) ∧
    (v1Magic.length ≤ s.length → s.take v1Magic.length ≠ v1Magic →
      s.take magicBase.length = magicBase →
      unwrap s = Except.error ErrorKind.ArmoringFromFuture) ∧
    (v1Magic.length ≤ s.length → s.take magicBase.length ≠ magicBase →
      unwrap s = Except.error ErrorKind.ArmoringInvalid) := by
  refine ⟨?_, ?_, ?_, ?_⟩
  · intro h
    unfold unwrap
    rw [if_pos h]
  · intro h
    have hlen : v1Magic.length ≤ s.length := by
      have := congrArg List.length h
      simp only [List.length_take] at this
      omega
    unfold unwrap
    rw [if_neg (by omega), if_pos h]
  · intro h1 h2 h3
    unfold unwrap
    rw [if_neg (by omega), if_neg h2, if_pos h3]
  · intro h1 h2
    have hv1 : s.take v1Magic.length ≠ v1Magic := by
      intro hv
      apply h2
      have hmin : magicBase.length ⊓ v1Magic.length = magicBase.length := by decide
      have hx : s.take magicBase.length = v1Magic.take magicBase.length := by
        have hy := congrArg (List.take magicBase.length) hv
        rw [List.take_take, hmin] at hy
        exact hy
      exact hx.trans (by decide)
    unfold unwrap
    rw [if_neg (by omega), if_neg hv1, if_neg h2]

/-- Witness for claim C6: a concrete input carrying the bare magic but
an unsupported version marker is rejected as ArmoringFromFuture. -/
theorem claim_C6_witness :
    v1Magic.length ≤ ([115, 97, 108, 116, 121, 98, 111, 120, 57, 57] : List Nat).length ∧
    unwrap [115, 97, 108, 116, 121, 98, 111, 120, 57, 57] =
      Except.error ErrorKind.ArmoringFromFuture :=
  ⟨by decide,
    (claim_C6 [115, 97, 108, 116, 121, 98, 111, 120, 57, 57]).2.2.1
      (by decide) (by decide) (by decide)⟩

/-- Claim C1: decrypting the output of encrypt with the same passphrase
succeeds and returns exactly the plaintext, for every plaintext
(including the empty sequence and sequences containing all byte
values) and every passphrase.  salt and nonce range over all values of
the lengths encrypt draws at random; the contract of the external
secretbox (opening a box sealed under the same key and nonce returns
the plaintext, and sealed length below 2 ^ 63) is the stated
hypothesis. -/
theorem claim_C1 (M : CryptoModel) (K P salt nonce : List Nat)
    (hsalt : salt.length = 8) (hnonce : nonce.length = 24)
    (hbound : (M.sealBox (M.kdf K salt) nonce P).length < 2 ^ 63)
    (hopen : M.openBox (M.kdf K salt) nonce (M.sealBox (M.kdf K salt) nonce P) = some P) :
    decrypt M K (encrypt_deterministic M K P salt nonce) = Except.ok P := by
  rw [decrypt_encrypt_det M K K P salt nonce hsalt hnonce hbound, hopen]

/-- Witness for claim C1 at a concrete passphrase and plaintext. -/
theorem claim_C1_witness :
    (List.replicate 8 (0 : Nat)).length = 8 ∧
    (List.replicate 24 (0 : Nat)).length = 24 ∧
    (toyModel.sealBox (toyModel.kdf [107] (List.replicate 8 0)) (List.replicate 24 0)
      [0, 255, 7]).length < 2 ^ 63 ∧
    toyModel.openBox (toyModel.kdf [107] (List.replicate 8 0)) (List.replicate 24 0)
      (toyModel.sealBox (toyModel.kdf [107] (List.replicate 8 0)) (List.replicate 24 0)
        [0, 255, 7]) = some [0, 255, 7] ∧
    decrypt toyModel [107]
      (encrypt_deterministic toyModel [107] [0, 255, 7] (List.replicate 8 0)
        (List.replicate 24 0)) = Except.ok [0, 255, 7] :=
  ⟨by decide, by decide, by decide, by decide,
    claim_C1 toyModel [107] [0, 255, 7] (List.replicate 8 0) (List.replicate 24 0)
      (by decide) (by decide) (by decide) (by decide)⟩

/-- Claim C7: decrypting under a passphrase different from the one used
to encrypt fails with the AuthenticationFailed error and never returns
a plaintext; the contract of the external collaborators (opening under
the key derived from the other passphrase fails) is the stated
hypothesis hfail. -/
theorem claim_C7 (M : CryptoModel) (K1 K2 P salt nonce : List Nat) (hne : K1 ≠ K2)
    (hsalt : salt.length = 8) (hnonce : nonce.length = 24)
    (hbound : (M.sealBox (M.kdf K1 salt) nonce P).length < 2 ^ 63)
    (hfail : M.openBox (M.kdf K2 salt) nonce (M.sealBox (M.kdf K1 salt) nonce P) = none) :
    decrypt M K2 (encrypt_deterministic M K1 P salt nonce) =
      Except.error DecErr.authFailed ∧
    decErrKind DecErr.authFailed = ErrorKind.AuthenticationFailed ∧
    ∀ pt, decrypt M K2 (encrypt_deterministic M K1 P salt nonce) ≠ Except.ok pt := by
  have h := decrypt_encrypt_det M K2 K1 P salt nonce hsalt hnonce hbound
  rw [hfail] at h
  refine ⟨h, rfl, ?_⟩
  intro pt hc
  rw [h] at hc
  cases hc

/-- Witness for claim C7 at concrete distinct passphrases. -/
theorem claim_C7_witness :
    ([1] : List Nat) ≠ [2] ∧
    (List.replicate 8 (0 : Nat)).length = 8 ∧
    (List.replicate 24 (0 : Nat)).length = 24 ∧
    (toyModel.sealBox (toyModel.kdf [1] (List.replicate 8 0)) (List.replicate 24 0)
      [5, 6]).length < 2 ^ 63 ∧
    toyModel.openBox (toyModel.kdf [2] (List.replicate 8 0)) (List.replicate 24 0)
      (toyModel.sealBox (toyModel.kdf [1] (List.replicate 8 0)) (List.replicate 24 0)
        [5, 6]) = none ∧
    decrypt toyModel [2]
      (encrypt_deterministic toyModel [1] [5, 6] (List.replicate 8 0)
        (List.replicate 24 0)) = Except.error DecErr.authFailed :=
  ⟨by decide, by decide, by decide, by decide, by decide,
    (claim_C7 toyModel [1] [2] [5, 6] (List.replicate 8 0) (List.replicate 24 0)
      (by decide) (by decide) (by decide) (by decide) (by decide)).1⟩

/-- Claim C8: the buffer built by encrypt_deterministic is exactly salt
then nonce then the big-endian signed int64 encoding of the sealed
length then the sealed payload, the length field equals the plaintext
length plus 16 (the tag size stated by the secretbox contract
hypothesis hlen), it decodes back non-negative, the total size is the
plaintext length plus 56, and nothing follows the payload. -/
theorem claim_C8 (M : CryptoModel) (K P salt nonce : List Nat)
    (hsalt : salt.length = 8) (hnonce : nonce.length = 24)
    (hlen : (M.sealBox (M.kdf K salt) nonce P).length = P.length + 16)
    (hbound : P.length + 16 < 2 ^ 63) :
    encrypt_deterministic M K P salt nonce =
      salt ++ nonce ++ i64ToBeBytes (P.length + 16) ++ M.sealBox (M.kdf K salt) nonce P ∧
    (encrypt_deterministic M K P salt nonce).length = P.length + 56 ∧
    i64FromBeBytes (i64ToBeBytes (P.length + 16)) = ((P.length + 16 : Nat) : Int) ∧
    0 ≤ ((P.length + 16 : Nat) : Int) := by
  refine ⟨?_, ?_, i64FromBeBytes_i64ToBeBytes _ hbound, by omega⟩
  · simp only [encrypt_deterministic]
    rw [hlen]
  · simp only [encrypt_deterministic, List.length_append, hsalt, hnonce,
      i64ToBeBytes_length, hlen]
    omega

/-- Witness for claim C8 at a concrete plaintext. -/
theorem claim_C8_witness :
    (List.replicate 8 (3 : Nat)).length = 8 ∧
    (List.replicate 24 (4 : Nat)).length = 24 ∧
    (toyModel.sealBox (toyModel.kdf [9] (List.replicate 8 3)) (List.replicate 24 4)
      [1, 2]).length = ([1, 2] : List Nat).length + 16 ∧
    ([1, 2] : List Nat).length + 16 < 2 ^ 63 ∧
    (encrypt_deterministic toyModel [9] [1, 2] (List.replicate 8 3)
      (List.replicate 24 4)).length = ([1, 2] : List Nat).length + 56 :=
  ⟨by decide, by decide, by decide, by decide,
    (claim_C8 toyModel [9] [1, 2] (List.replicate 8 3) (List.replicate 24 4)
      (by decide) (by decide) (by decide) (by decide)).2.1⟩

/-- Claim C10: decrypt is total and never panics: every slice access is
dominated by a bounds check, so the out-of-bounds marker sliceOob is
unreachable and decrypt always returns Ok or a proper error, for every
input and passphrase. -/
theorem claim_C10 (M : CryptoModel) (passphrase ciphertext : List Nat) :
    isSliceOobResult (decrypt M passphrase ciphertext) = false := by
  have h : decrypt M passphrase ciphertext ≠ Except.error DecErr.sliceOob := by
    unfold decrypt
    repeat' split
    all_goals try (simp_all [sliceQ]; done)
    all_goals simp_all [sliceQ]
    all_goals (repeat' split)
    all_goals simp_all
  cases hd : decrypt M passphrase ciphertext with
  | ok pt => rfl
  | error e =>
      cases e <;> first
        | rfl
        | exact absurd hd h

/-- Counterexample to claim C3 as stated: this 48-byte input passes
checks 1 to 5 and its decoded length 20 exceeds the 8 bytes remaining
after the 40-byte header, yet decrypt reports the check-7
TruncatedInput error, not the claimed-too-long BinaryFormat error:
check 6 compares against the total input size (20 is not greater than
48), so check 7 is reachable. -/
theorem claim_C3_counterexample :
    (List.replicate 32 (0 : Nat) ++ (i64ToBeBytes 20 ++ List.replicate 8 0)).length = 48 ∧
    i64FromBeBytes (i64ToBeBytes 20) = (20 : Int) ∧
    (0 : Int) ≤ 20 ∧ (20 : Int) ≤ isizeMax ∧
    48 - 40 < 20 ∧
    decrypt toyModel [] (List.replicate 32 0 ++ (i64ToBeBytes 20 ++ List.replicate 8 0)) =
      Except.error DecErr.truncSealed ∧
    DecErr.truncSealed ≠ DecErr.claimedTooLong ∧
    decErrKind DecErr.truncSealed = ErrorKind.TruncatedInput ∧
    decErrKind DecErr.claimedTooLong = ErrorKind.BinaryFormat := by decide

/-- Claim C3 (amended): for inputs passing the salt, nonce,
length-field, non-negativity and capacity checks, check 6 compares the
decoded length with the total input size, not the remaining size: a
decoded length greater than the total input size yields the
claimed-too-long BinaryFormat error, while a decoded length at most
the total input size but greater than the bytes remaining after the
40-byte header yields the check-7 TruncatedInput error, so check 7 is
reachable. -/
theorem claim_C3_amended (M : CryptoModel) (pass pre lenB rest : List Nat) (L : Nat)
    (h32 : pre.length = 32) (h8 : lenB.length = 8)
    (hdec : i64FromBeBytes lenB = (L : Int)) (hcap : (L : Int) ≤ isizeMax) :
    (40 + rest.length < L →
      decrypt M pass (pre ++ (lenB ++ rest)) = Except.error DecErr.claimedTooLong) ∧
    (L ≤ 40 + rest.length → rest.length < L →
      decrypt M pass (pre ++ (lenB ++ rest)) = Except.error DecErr.truncSealed) ∧
    decErrKind DecErr.claimedTooLong = ErrorKind.BinaryFormat ∧
    decErrKind DecErr.truncSealed = ErrorKind.TruncatedInput := by
  have h := decrypt_header M pass pre lenB rest h32 h8
  rw [hdec] at h
  refine ⟨?_, ?_, rfl, rfl⟩
  · intro hgt
    rw [h, if_neg (by omega), if_neg (not_lt.mpr hcap), if_pos (by omega)]
  · intro hle hlt
    rw [h, if_neg (by omega), if_neg (not_lt.mpr hcap), if_neg (by omega),
      if_pos (by omega)]

/-- Witness for the amended claim C3 at the concrete 48-byte input. -/
theorem claim_C3_amended_witness :
    (List.replicate 32 (0 : Nat)).length = 32 ∧ (i64ToBeBytes 20).length = 8 ∧
    i64FromBeBytes (i64ToBeBytes 20) = ((20 : Nat) : Int) ∧
    ((20 : Nat) : Int) ≤ isizeMax ∧
    decrypt toyModel [] (List.replicate 32 0 ++ (i64ToBeBytes 20 ++ List.replicate 8 0)) =
      Except.error DecErr.truncSealed :=
  ⟨by decide, by decide, by decide, by decide,
    (claim_C3_amended toyModel [] (List.replicate 32 0) (i64ToBeBytes 20)
      (List.replicate 8 0) 20 (by decide) (by decide) (by decide) (by decide)).2.1
      (by decide) (by decide)⟩

set_option maxRecDepth 20000 in
/-- Counterexample to claim C4 as stated: truncating this envelope
(produced by encrypt_deterministic, 140 bytes, 100-byte payload)
within the payload at 50 bytes yields the claimed-too-long
BinaryFormat error, not a TruncatedInput error, because the claimed
length 100 exceeds the 50-byte truncated total. -/
theorem claim_C4_counterexample :
    (encrypt_deterministic toyModel [5] (List.replicate 84 0) (List.replicate 8 0)
      (List.replicate 24 0)).length = 140 ∧
    40 ≤ 50 ∧ 50 < 140 ∧
    decrypt toyModel [5]
      ((encrypt_deterministic toyModel [5] (List.replicate 84 0) (List.replicate 8 0)
        (List.replicate 24 0)).take 50) = Except.error DecErr.claimedTooLong ∧
    decErrKind DecErr.claimedTooLong ≠ ErrorKind.TruncatedInput := by decide

/-- Claim C4 (amended): truncating an encoded envelope within the salt,
nonce or length field yields the corresponding TruncatedInput error;
truncating within the payload yields the check-7 TruncatedInput error
when at least the claimed length survives in total, and the
claimed-too-long BinaryFormat error when fewer than the claimed length
of bytes survive; appending one extra byte yields TrailingData; a
negative length field yields BinaryFormat. -/
theorem claim_C4_amended (M : CryptoModel) (pass salt nonce sealed : List Nat)
    (hsalt : salt.length = 8) (hnonce : nonce.length = 24)
    (hbound : sealed.length < 2 ^ 63) :
    (∀ t, t < 8 →
      decrypt M pass ((salt ++ nonce ++ i64ToBeBytes sealed.length ++ sealed).take t) =
        Except.error DecErr.truncSalt) ∧
    (∀ t, 8 ≤ t → t < 32 →
      decrypt M pass ((salt ++ nonce ++ i64ToBeBytes sealed.length ++ sealed).take t) =
        Except.error DecErr.truncNonce) ∧
    (∀ t, 32 ≤ t → t < 40 →
      decrypt M pass ((salt ++ nonce ++ i64ToBeBytes sealed.length ++ sealed).take t) =
        Except.error DecErr.truncLen) ∧
    (∀ t, 40 ≤ t → t < 40 + sealed.length →
      decrypt M pass ((salt ++ nonce ++ i64ToBeBytes sealed.length ++ sealed).take t) =
        (if t < sealed.length then Except.error DecErr.claimedTooLong
         else Except.error DecErr.truncSealed)) ∧
    (∀ x, decrypt M pass ((salt ++ nonce ++ i64ToBeBytes sealed.length ++ sealed) ++ [x]) =
        Except.error DecErr.trailing) ∧
    (∀ lenB rest, lenB.length = 8 → i64FromBeBytes lenB < 0 →
      decrypt M pass ((salt ++ nonce) ++ (lenB ++ rest)) = Except.error DecErr.negLen) ∧
    (decErrKind DecErr.truncSalt = ErrorKind.TruncatedInput ∧
      decErrKind DecErr.truncNonce = ErrorKind.TruncatedInput ∧
      decErrKind DecErr.truncLen = ErrorKind.TruncatedInput ∧
      decErrKind DecErr.truncSealed = ErrorKind.TruncatedInput ∧
      decErrKind DecErr.trailing = ErrorKind.TrailingData ∧
      decErrKind DecErr.negLen = ErrorKind.BinaryFormat ∧
      decErrKind DecErr.claimedTooLong = ErrorKind.BinaryFormat) := by
  have hpre : (salt ++ nonce).length = 32 := by simp [hsalt, hnonce]
  have henv : (salt ++ nonce ++ i64ToBeBytes sealed.length ++ sealed).length =
      40 + sealed.length := by
    simp only [List.length_append, hsalt, hnonce, i64ToBeBytes_length]
  refine ⟨?_, ?_, ?_, ?_, ?_, ?_, rfl, rfl, rfl, rfl, rfl, rfl, rfl⟩
  · intro t ht
    apply decrypt_trunc_salt
    rw [List.length_take, henv]
    omega
  · intro t h1 h2
    apply decrypt_trunc_nonce <;> rw [List.length_take, henv] <;> omega
  · intro t h1 h2
    apply decrypt_trunc_len <;> rw [List.length_take, henv] <;> omega
  · intro t h1 h2
    have hsplit : (salt ++ nonce ++ i64ToBeBytes sealed.length ++ sealed).take t =
        (salt ++ nonce) ++ (i64ToBeBytes sealed.length ++ sealed.take (t - 40)) := by
      rw [List.take_append_eq_append_take,
        List.take_of_length_le (by rw [List.length_append, hpre, i64ToBeBytes_length]; omega)]
      rw [show (salt ++ nonce ++ i64ToBeBytes sealed.length).length = 40 from
        by rw [List.length_append, hpre, i64ToBeBytes_length]]
      rw [List.append_assoc]
    rw [hsplit, decrypt_header M pass (salt ++ nonce) _ _ hpre (i64ToBeBytes_length _),
      i64FromBeBytes_i64ToBeBytes _ hbound]
    have hr : (sealed.take (t - 40)).length = t - 40 := by
      rw [List.length_take]
      omega
    rw [hr]
    by_cases hcase : t < sealed.length
    · rw [if_neg (by omega), if_neg (by simp only [isizeMax]; omega), if_pos (by omega),
        if_pos hcase]
    · rw [if_neg (by omega), if_neg (by simp only [isizeMax]; omega), if_neg (by omega),
        if_pos (by omega), if_neg hcase]
  · intro x
    have hsplit : (salt ++ nonce ++ i64ToBeBytes sealed.length ++ sealed) ++ [x] =
        (salt ++ nonce) ++ (i64ToBeBytes sealed.length ++ (sealed ++ [x])) := by
      simp [List.append_assoc]
    rw [hsplit, decrypt_header M pass (salt ++ nonce) _ _ hpre (i64ToBeBytes_length _),
      i64FromBeBytes_i64ToBeBytes _ hbound]
    have hr : (sealed ++ [x]).length = sealed.length + 1 := by simp
    rw [hr, if_neg (by omega), if_neg (by simp only [isizeMax]; omega), if_neg (by omega),
      if_neg (by omega), if_pos (by omega)]
  · intro lenB rest hlenB hneg
    rw [decrypt_header M pass (salt ++ nonce) lenB rest hpre hlenB, if_pos hneg]

/-- Witness for the amended claim C4: a 90-byte envelope with a 50-byte
payload truncated to 45 bytes triggers the claimed-too-long branch. -/
theorem claim_C4_amended_witness :
    (List.replicate 8 (0 : Nat)).length = 8 ∧
    (List.replicate 24 (0 : Nat)).length = 24 ∧
    (List.replicate 50 (2 : Nat)).length < 2 ^ 63 ∧
    decrypt toyModel []
      ((List.replicate 8 0 ++ List.replicate 24 0 ++
        i64ToBeBytes (List.replicate 50 (2 : Nat)).length ++ List.replicate 50 2).take 45) =
      Except.error DecErr.claimedTooLong := by
  refine ⟨by decide, by decide, by decide, ?_⟩
  rw [(claim_C4_amended toyModel [] (List.replicate 8 0) (List.replicate 24 0)
    (List.replicate 50 2) (by decide) (by decide) (by decide)).2.2.2.1 45
    (by decide) (by decide)]
  decide

/-- Claim C2: whenever phase-1 validation of update_file fails (the
content is not UTF-8, unarmoring fails, envelope decoding fails, or
the existing file does not open under the supplied passphrase), no
phase-2 replacement occurs and the target content is unchanged; and an
incorrect passphrase (one under which the secretbox does not open, the
hypothesis hfail) in particular yields the AuthenticationFailed
error. -/
theorem claim_C2 (M : CryptoModel) (plain K1 K2 P salt0 nonce0 saltN nonceN : List Nat)
    (hsalt : salt0.length = 8) (hnonce : nonce0.length = 24)
    (hsb : ∀ x ∈ salt0, x < 256) (hnb : ∀ x ∈ nonce0, x < 256)
    (hpb : ∀ x ∈ M.sealBox (M.kdf K1 salt0) nonce0 P, x < 256)
    (hbound : (M.sealBox (M.kdf K1 salt0) nonce0 P).length < 2 ^ 63)
    (hfail : M.openBox (M.kdf K2 salt0) nonce0 (M.sealBox (M.kdf K1 salt0) nonce0 P) = none) :
    (∀ plainC cryptC pass saltA nonceA e,
        (update_file M plainC cryptC pass saltA nonceA).2 = some e →
        (update_file M plainC cryptC pass saltA nonceA).1 = cryptC) ∧
    update_file M plain (wrap (encrypt_deterministic M K1 P salt0 nonce0)) K2 saltN nonceN =
      (wrap (encrypt_deterministic M K1 P salt0 nonce0),
        some (UpdErr.decryptErr DecErr.authFailed)) ∧
    updErrKind (UpdErr.decryptErr DecErr.authFailed) = ErrorKind.AuthenticationFailed := by
  refine ⟨?_, ?_, rfl⟩
  · intro plainC cryptC pass saltA nonceA e
    unfold update_file
    split
    · intro _
      rfl
    · split
      · intro _
        rfl
      · split
        · intro _
          rfl
        · intro hc
          simp at hc
  · have henv : ∀ x ∈ encrypt_deterministic M K1 P salt0 nonce0, x < 256 := by
      intro x hx
      simp only [encrypt_deterministic, List.append_assoc, List.mem_append] at hx
      rcases hx with hx | hx | hx | hx
      · exact hsb x hx
      · exact hnb x hx
      · exact i64ToBeBytes_bytes _ x hx
      · exact hpb x hx
    have hutf : validUtf8 (wrap (encrypt_deterministic M K1 P salt0 nonce0)) = true :=
      validUtf8_of_ascii _ (wrap_ascii _)
    have hunwrap : unwrap (wrap (encrypt_deterministic M K1 P salt0 nonce0)) =
        Except.ok (encrypt_deterministic M K1 P salt0 nonce0) :=
      unwrap_wrap _ henv
    have hdec : decrypt M K2 (encrypt_deterministic M K1 P salt0 nonce0) =
        Except.error DecErr.authFailed := by
      rw [decrypt_encrypt_det M K2 K1 P salt0 nonce0 hsalt hnonce hbound, hfail]
    simp only [update_file, hutf, hunwrap, hdec]
    rw [if_neg (by simp)]

/-- Witness for claim C2: updating a concrete encrypted file with a
wrong passphrase reports AuthenticationFailed and leaves the content
unchanged. -/
theorem claim_C2_witness :
    (List.replicate 8 (0 : Nat)).length = 8 ∧
    (List.replicate 24 (0 : Nat)).length = 24 ∧
    (∀ x ∈ List.replicate 8 (0 : Nat), x < 256) ∧
    (∀ x ∈ List.replicate 24 (0 : Nat), x < 256) ∧
    (∀ x ∈ toyModel.sealBox (toyModel.kdf [1] (List.replicate 8 0)) (List.replicate 24 0) [],
      x < 256) ∧
    (toyModel.sealBox (toyModel.kdf [1] (List.replicate 8 0)) (List.replicate 24 0)
      []).length < 2 ^ 63 ∧
    toyModel.openBox (toyModel.kdf [2] (List.replicate 8 0)) (List.replicate 24 0)
      (toyModel.sealBox (toyModel.kdf [1] (List.replicate 8 0)) (List.replicate 24 0) []) =
      none ∧
    update_file toyModel [7]
      (wrap (encrypt_deterministic toyModel [1] [] (List.replicate 8 0)
        (List.replicate 24 0))) [2] (List.replicate 8 1) (List.replicate 24 1) =
      (wrap (encrypt_deterministic toyModel [1] [] (List.replicate 8 0)
        (List.replicate 24 0)), some (UpdErr.decryptErr DecErr.authFailed)) :=
  ⟨by decide, by decide, by decide, by decide, by decide, by decide, by decide,
    (claim_C2 toyModel [7] [1] [2] [] (List.replicate 8 0) (List.replicate 24 0)
      (List.replicate 8 1) (List.replicate 24 1) (by decide) (by decide) (by decide)
      (by decide) (by decide) (by decide) (by decide)).2.1⟩

end Saltybox
